import Mathlib

/-!
Verification development for the konta GitOps agent.

Go strings are modelled as lists of characters (`GoStr`); external effects
(git, the docker CLI, the filesystem, hook processes) are modelled as
oracle fields of environment records, and the functions under study are
translated statement by statement from the Go source.  Commands issued to
the container runtime and lifecycle steps of a reconciliation cycle are
recorded in traces so that ordering and containment properties can be
stated.
-/

namespace Konta

/-! ## Go string helpers (strings package), on lists of characters -/

abbrev GoStr := List Char

/-- Go `strings.TrimPrefix(s, pre)`. -/
def goTrimPre (s pre : GoStr) : GoStr :=
  if pre.isPrefixOf s then s.drop pre.length else s

/-- Go `strings.TrimSuffix(s, "/")`: removes one trailing forward slash. -/
def goTrimSlashSuffix (s : GoStr) : GoStr :=
  if s.getLast? = some '/' then s.dropLast else s

/-- Go `strings.ReplaceAll(s, "\\", "/")` (both patterns are single characters). -/
def goBackToFwd (s : GoStr) : GoStr :=
  s.map (fun c => if c = '\\' then '/' else c)

/-- Go `strings.Split(s, "/")`.  Never returns the empty list. -/
def goSplitSlash : GoStr → List GoStr
  | [] => [[]]
  | c :: rest =>
    match goSplitSlash rest with
    | [] => [[]]
    | p :: ps => if c = '/' then [] :: p :: ps else (c :: p) :: ps

/-- Lexicographic comparison on character lists (the order used by
Go `sort.Strings`). -/
def leGoStr : GoStr → GoStr → Bool
  | [], _ => true
  | _ :: _, [] => false
  | a :: as, b :: bs => if a = b then leGoStr as bs else decide (a < b)

/-- Insertion step of the sorting model for Go `sort.Strings`. -/
def insertSorted (x : GoStr) : List GoStr → List GoStr
  | [] => [x]
  | y :: ys => if leGoStr x y then x :: y :: ys else y :: insertSorted x ys

/-- Model of Go `sort.Strings` (any comparison sort yields the same
sorted sequence on strings). -/
def sortGoStr (l : List GoStr) : List GoStr := l.foldr insertSorted []

/-! ## Revision store client: change detection (internal/git, GetChangedProjects) -/

namespace Git

/-- One entry of the structured diff between two commits: the `From` and
`To` path names of a change (either may be empty, e.g. for adds/deletes). -/
structure Change where
  fromName : GoStr
  toName : GoStr
deriving DecidableEq

/-- The prefix computed in `GetChangedProjects`:
`strings.TrimSuffix(strings.ReplaceAll(appsPath, "\\", "/"), "/") + "/"`. -/
def changedPre (appsPath : GoStr) : GoStr :=
  goTrimSlashSuffix (goBackToFwd appsPath) ++ ['/']

/-- Insertion into the `changedProjects` set (Go map), modelled as a
duplicate-free list in first-insertion order. -/
def insertProject (acc : List GoStr) (p : GoStr) : List GoStr :=
  if p ∈ acc then acc else acc ++ [p]

/-- The per-path body of the loop in `GetChangedProjects`: skip empty
paths, require the prefix, split the remainder on `/` and record the
first component when it is nonempty. -/
def collectPath (pre : GoStr) (acc : List GoStr) (path : GoStr) : List GoStr :=
  if path = [] then acc
  else if pre.isPrefixOf path then
    let relPath := goTrimPre path pre
    let parts := goSplitSlash relPath
    if 0 < parts.length ∧ parts.headI ≠ [] then insertProject acc parts.headI else acc
  else acc

/-- Model of `GetChangedProjects(repoDir, appsPath, oldCommit, newCommit)` from
internal/git/git.go, with the structured diff between the two commits
supplied as `changes` (git is an external process).  `none` models the Go
`nil` slice (reconcile everything); `some l` models a non-nil slice. -/
def GetChangedProjects (appsPath oldCommit newCommit : GoStr)
    (changes : List Change) : Option (List GoStr) :=
  if oldCommit = [] then none
  else if oldCommit = newCommit then some []
  else
    let pre := changedPre appsPath
    some (changes.foldl
      (fun acc ch => collectPath pre (collectPath pre acc ch.fromName) ch.toName) [])

/-- The property claimed of a project name `p` by the specification: some
changed file path carries the prefix `<normalised subtree>/<p>/`. -/
def specChangedProject (pre : GoStr) (changes : List Change) (p : GoStr) : Prop :=
  ∃ ch ∈ changes, ∃ path ∈ [ch.fromName, ch.toName],
    (pre ++ p ++ ['/']).isPrefixOf path = true

instance (pre : GoStr) (changes : List Change) (p : GoStr) :
    Decidable (specChangedProject pre changes p) := by
  unfold specChangedProject; infer_instance

/-- What the code actually records for one changed path: the path is
nonempty, carries the prefix, and `p` is the (nonempty) segment of the
remainder up to the first slash. -/
def pathHit (pre path p : GoStr) : Prop :=
  ¬path = [] ∧ pre.isPrefixOf path = true ∧ ¬p = [] ∧
    p = (path.drop pre.length).takeWhile (fun c => !(c = '/' : Bool))

instance (pre path p : GoStr) : Decidable (pathHit pre path p) := by
  unfold pathHit; infer_instance

/-- The set `GetChangedProjects` actually returns in the nontrivial
branch: `p` is recorded by the `From` or `To` name of some change. -/
def codeChangedProject (pre : GoStr) (changes : List Change) (p : GoStr) : Prop :=
  ∃ ch ∈ changes, ∃ path ∈ [ch.fromName, ch.toName], pathHit pre path p

instance (pre : GoStr) (changes : List Change) (p : GoStr) :
    Decidable (codeChangedProject pre changes p) := by
  unfold codeChangedProject; infer_instance

end Git

/-! ## Revision store client: clone options (internal/git, Clone) -/

namespace Git

/-- The clone options passed to `gogit.PlainClone` in `Clone`
(internal/git/git.go). -/
structure CloneOptions where
  url : String
  referenceName : String
  singleBranch : Bool
  depth : Nat
deriving DecidableEq

/-- In `Clone` the options are built from the configuration: the branch
reference, single-branch mode, and a fixed shallow depth of 1. -/
def cloneOptions (url branch : String) : CloneOptions :=
  { url := url
    referenceName := "refs/heads/" ++ branch
    singleBranch := true
    depth := 1 }

end Git

/-! ## State store (internal/state, Save) -/

namespace StateStore

/-- Filesystem operations a state write can issue. -/
inductive FsOp where
  | write (path : String) (data : String)
  | rename (src : String) (dst : String)
deriving DecidableEq

/-- The deployment-state record (timestamps and the per-project map are
irrelevant to the write-path claim and carried opaquely). -/
structure StateRec where
  lastCommit : String
  version : String
deriving DecidableEq

/-- Simplified rendering of `json.MarshalIndent` on the state record; the
write-pattern claim does not depend on the serialised text. -/
def marshalState (st : StateRec) : String :=
  "last_commit:" ++ st.lastCommit ++ ";version:" ++ st.version

def statePath : String := "/var/lib/konta/state.json"

/-- The sequence of filesystem operations issued by `state.Save`
(internal/state/state.go): a single direct `os.WriteFile` of the
marshalled record to the state file. -/
def saveOps (st : StateRec) : List FsOp :=
  [FsOp.write statePath (marshalState st)]

/-- The write pattern claimed by the specification: write the data to a
temporary file and rename it over the state file. -/
def atomicWritePattern (ops : List FsOp) (path : String) : Prop :=
  ∃ tmp data, tmp ≠ path ∧ ops = [FsOp.write tmp data, FsOp.rename tmp path]

end StateStore

/-! ## Process lock (internal/lock, FileLock.Release) -/

namespace Lock

/-- The `os.File` held by a lock handle; after `Close` the descriptor is
invalid and further `flock` or `Close` calls fail with `EBADF`. -/
structure GoFile where
  closed : Bool
deriving DecidableEq

/-- Model of `FileLock` from internal/lock/lock.go. -/
structure FileLock where
  file : Option GoFile
deriving DecidableEq

/-- Call `syscall.Flock(fd, LOCK_UN)`: it succeeds exactly when the descriptor is
still valid. -/
def flockUnlockOk (f : GoFile) : Bool := !f.closed

/-- Model of `FileLock.Release`: returns `none` on success and an error message
otherwise, together with the handle after the call.  The Go method never
clears `fl.file`, so the closed file stays in the handle. -/
def Release (fl : FileLock) : Option String × FileLock :=
  match fl.file with
  | none => (none, fl)
  | some f =>
    if flockUnlockOk f then (none, { file := some { closed := true } })
    else (some "failed to release lock", fl)

/-- The handle returned by a successful `Acquire`: an open lock file. -/
def acquiredLock : FileLock := { file := some { closed := false } }

end Lock

/-! ## Reconciler (internal/reconcile/reconcile.go) -/

namespace Recon

/-- A container known to the docker daemon: its identifier, its
`container_name`, its `com.docker.compose.project` label, whether it
carries `konta.managed=true` and `konta.stopped=true`, and whether its
status is running (as opposed to exited). -/
structure Container where
  cid : GoStr
  name : GoStr
  project : GoStr
  managed : Bool
  stoppedLabel : Bool
  running : Bool
deriving DecidableEq

/-- Result of a `docker compose up` invocation: success, a failure whose
stderr contains "already in use by container" (with the result of the
retry after cleanup), or any other failure. -/
inductive UpOutcome where
  | ok
  | conflict (retryOk : Bool)
  | fail
deriving DecidableEq

/-- The reconciler's environment: the docker daemon state, the scanned
desired projects (directories under the apps dir holding a
docker-compose.yml, lexicographically sorted by the scanner), and oracles
for the external process invocations. -/
structure RecEnv where
  containers : List Container
  desired : List GoStr
  upOutcome : GoStr → UpOutcome
  composeNames : GoStr → List GoStr
  psOk : Bool
  dryRun : Bool

/-- A command issued to the container runtime. -/
inductive DockerCmd where
  | composeUp (project : GoStr)
  | composeDown (project : GoStr)
  | stop (cid : GoStr)
  | rmForce (cid : GoStr)
deriving DecidableEq

/-- Model of `getRunningProjects`: `docker ps --filter label=konta.managed=true`
lists the running containers carrying the ownership label; their project
labels (nonempty lines) are collected and sorted.  A probe failure yields
the empty list. -/
def getRunningProjects (env : RecEnv) : List GoStr :=
  if env.psOk then
    sortGoStr (((env.containers.filter
      (fun c => c.managed && c.running)).map Container.project).filter
        (fun p => ¬p = []))
  else []

/-- The stop commands issued by `stopContainersMarkedAsStopped` (also the
first phase of `hasStoppedContainers`): running managed containers of the
project bearing `konta.stopped=true` are stopped by ID. -/
def stopMarkedCmds (env : RecEnv) (project : GoStr) : List DockerCmd :=
  if env.dryRun then []
  else
    (env.containers.filter (fun c =>
      c.project = project && c.managed && c.stoppedLabel && c.running)).map
        (fun c => DockerCmd.stop c.cid)

/-- Second phase of `hasStoppedContainers`: is there an exited managed
container of the project whose `konta.stopped` label is not `true`? -/
def hasExited (env : RecEnv) (project : GoStr) : Bool :=
  env.containers.any (fun c =>
    c.project = project && c.managed && !c.running && !c.stoppedLabel)

/-- Model of `cleanupConflictingContainers`: extract the `container_name:` entries
from the project's compose file and force-remove any existing container
with such a name (no label filter). -/
def cleanupConflicting (env : RecEnv) (project : GoStr) : List DockerCmd :=
  (env.composeNames project).filterMap (fun nm =>
    (env.containers.find? (fun c => c.name = nm)).map
      (fun c => DockerCmd.rmForce c.cid))

/-- Model of `reconcileProject`: `docker compose -p <p> -f <file> up -d
--remove-orphans`; on a name-conflict failure run the cleanup and retry
once; after a successful up stop the `konta.stopped=true` containers. -/
def reconcileProject (env : RecEnv) (project : GoStr) : Bool × List DockerCmd :=
  if env.dryRun then (true, [])
  else
    match env.upOutcome project with
    | UpOutcome.ok =>
        (true, DockerCmd.composeUp project :: stopMarkedCmds env project)
    | UpOutcome.fail => (false, [DockerCmd.composeUp project])
    | UpOutcome.conflict retryOk =>
        let cmds := DockerCmd.composeUp project :: cleanupConflicting env project
          ++ [DockerCmd.composeUp project]
        if retryOk then (true, cmds ++ stopMarkedCmds env project)
        else (false, cmds)

/-- Model of `startProject`: a single `docker compose up` without conflict
recovery. -/
def startProject (env : RecEnv) (project : GoStr) : Bool × List DockerCmd :=
  if env.dryRun then (true, [])
  else
    match env.upOutcome project with
    | UpOutcome.ok => (true, [DockerCmd.composeUp project])
    | _ => (false, [DockerCmd.composeUp project])

/-- The skip test of the first loop of `Reconcile`:
`r.changedProjects != nil && !r.changedProjects[project]`. -/
def skipProject (filterSet : Option (List GoStr)) (p : GoStr) : Bool :=
  match filterSet with
  | none => false
  | some l => !decide (p ∈ l)

/-- First loop of `Reconcile`: process each desired project in order,
skipping those outside the changed-projects filter; abort on the first
failure, returning the projects reconciled so far. -/
def reconcileLoop (env : RecEnv) (filterSet : Option (List GoStr)) :
    List GoStr → Bool × List GoStr × List DockerCmd
  | [] => (true, [], [])
  | p :: rest =>
    if skipProject filterSet p then
      reconcileLoop env filterSet rest
    else
      let r := reconcileProject env p
      if r.1 then
        let rr := reconcileLoop env filterSet rest
        (rr.1, p :: rr.2.1, r.2 ++ rr.2.2)
      else (false, [], r.2)

/-- Second loop of `Reconcile`: for desired projects not already in the
reconciled list, stop opt-out containers and start the project when it
has exited managed containers lacking the opt-out label; start failures
are only warned. -/
def startLoop (env : RecEnv) : List GoStr → List GoStr → List GoStr × List DockerCmd
  | acc, [] => (acc, [])
  | acc, p :: rest =>
    if p ∈ acc then startLoop env acc rest
    else
      let stops := stopMarkedCmds env p
      if hasExited env p then
        let s := startProject env p
        let r := startLoop env (if s.1 then acc ++ [p] else acc) rest
        (r.1, stops ++ s.2 ++ r.2)
      else
        let r := startLoop env acc rest
        (r.1, stops ++ r.2)

/-- Orphan-teardown loop shared by `Reconcile` and `HealthCheck`: every
running project that is not desired is brought down (unless dry-run);
down failures are only logged. -/
def downOrphans (env : RecEnv) (desired : List GoStr) : List GoStr → List DockerCmd
  | [] => []
  | p :: rest =>
    if p ∈ desired then downOrphans env desired rest
    else if env.dryRun then downOrphans env desired rest
    else DockerCmd.composeDown p :: downOrphans env desired rest

/-- Model of `Reconciler.Reconcile`: returns the reconciled projects (`none` on a
fatal error) and the trace of docker commands issued. -/
def Reconcile (env : RecEnv) (filterSet : Option (List GoStr)) :
    Option (List GoStr) × List DockerCmd :=
  let desired := env.desired
  let running := getRunningProjects env
  let l1 := reconcileLoop env filterSet desired
  if l1.1 then
    let l2 := startLoop env l1.2.1 desired
    (some l2.1, l1.2.2 ++ l2.2 ++ downOrphans env desired running)
  else (none, l1.2.2)

/-- The per-project loop of `HealthCheck` (no skip over already
reconciled projects). -/
def healthLoop (env : RecEnv) : List GoStr → List GoStr × List DockerCmd
  | [] => ([], [])
  | p :: rest =>
    let stops := stopMarkedCmds env p
    if hasExited env p then
      let s := startProject env p
      let r := healthLoop env rest
      ((if s.1 then p :: r.1 else r.1), stops ++ s.2 ++ r.2)
    else
      let r := healthLoop env rest
      (r.1, stops ++ r.2)

/-- Model of `Reconciler.HealthCheck`: start stopped desired projects, then tear
down orphans; never fails. -/
def HealthCheck (env : RecEnv) : List GoStr × List DockerCmd :=
  let l := healthLoop env env.desired
  (l.1, l.2 ++ downOrphans env env.desired (getRunningProjects env))

/-- Ownership of a runtime command, as claimed by the specification: a
force-remove must target a managed container, and a compose down must
target a project with at least one managed container. -/
def cmdOwned (env : RecEnv) : DockerCmd → Prop
  | DockerCmd.rmForce cid => ∃ c ∈ env.containers, c.cid = cid ∧ c.managed = true
  | DockerCmd.composeDown p => ∃ c ∈ env.containers, c.project = p ∧ c.managed = true
  | _ => True

instance (env : RecEnv) (cmd : DockerCmd) : Decidable (cmdOwned env cmd) := by
  unfold cmdOwned; cases cmd <;> infer_instance

/-- The ownership-containment property claimed of a command trace. -/
def ownershipContained (env : RecEnv) (trace : List DockerCmd) : Prop :=
  ∀ cmd ∈ trace, cmdOwned env cmd

instance (env : RecEnv) (trace : List DockerCmd) :
    Decidable (ownershipContained env trace) := by
  unfold ownershipContained; infer_instance

end Recon

/-! ## Config loader path normalisation (internal/config/config.go, Load) -/

namespace Config

/-- Go `filepath.Dir` on slash-normalised paths without repeated
separators (the shapes produced by the loader): everything before the
last slash, `"."` when there is none, `"/"` when the slash is leading. -/
def dirPath (p : GoStr) : GoStr :=
  let r := p.reverse.dropWhile (fun c => !(c = '/' : Bool))
  if r = [] then ['.']
  else if r.drop 1 = [] then ['/']
  else (r.drop 1).reverse

/-- Go `filepath.Join` on two elements, for slash-normalised arguments
without trailing separators: empty elements are skipped, otherwise the
parts are joined with a single slash. -/
def joinPath (a b : GoStr) : GoStr :=
  if a = [] then b else a ++ '/' :: b

/-- The `repository.path` normalisation in `config.Load`: empty or `"."`
becomes `"apps"`; a path already ending in `"apps"` is kept; otherwise
`"apps"` is joined onto the path. -/
def normalizeRepoPath (p : GoStr) : GoStr :=
  if p = [] ∨ p = ['.'] then "apps".data
  else if ("apps".data).isSuffixOf p then p
  else joinPath p "apps".data

/-- The `if appsBasePath == "." { appsBasePath = "" }` adjustment in
`config.Load`. -/
def adjustBase (b : GoStr) : GoStr :=
  if b = ['.'] then [] else b

/-- The hooks directory computed in `config.Load`: the parent of the
normalised path (with `"."` flattened to the empty string) joined with
`"hooks"`. -/
def hooksBase (p : GoStr) : GoStr :=
  joinPath (adjustBase (dirPath (normalizeRepoPath p))) "hooks".data

/-- The specification's reading of the normalisation: for every
non-empty, non-dot configured path the scan root is `<path>/apps` and the
hook directory is `<path>/hooks`. -/
def specC9 (p : GoStr) : Prop :=
  normalizeRepoPath p =
      (if p = [] ∨ p = ['.'] then "apps".data else p ++ '/' :: "apps".data)
    ∧ hooksBase p =
      (if p = [] ∨ p = ['.'] then "hooks".data else p ++ '/' :: "hooks".data)

instance (p : GoStr) : Decidable (specC9 p) := by
  unfold specC9; infer_instance

end Config

/-! ## Atomic release switch (internal/cmd/cmd.go, atomicSwitch) -/

namespace Release

/-- The parts of the filesystem the switch touches: the entries of the
`releases/` directory (name and is-directory flag), the target of the
`current` symbolic link, and whether the temporary source tree exists. -/
structure ReleasesFS where
  entries : List (String × Bool)
  current : Option String
  tempExists : Bool
deriving DecidableEq

/-- Outcomes of the filesystem calls whose failures the cleanup only
logs: the `os.ReadDir` of `releases/` and the per-entry `os.RemoveAll`.
(Calls whose failure aborts the switch with an error return —
`MkdirAll`, the rename, `Symlink` — are modelled by the error result
of `atomicSwitch` itself.) -/
structure FsOracle where
  readDirOk : Bool
  removeOk : String → Bool

/-- Model of `cleanupOldReleases`: when the directory listing fails the
function warns and returns; otherwise every subdirectory whose name
differs from the applied commit is removed, an entry whose `RemoveAll`
fails being warned about and left in place.  Non-directory entries are
skipped. -/
def cleanupOldReleases (oracle : FsOracle) (entries : List (String × Bool))
    (currentCommit : String) : List (String × Bool) :=
  if oracle.readDirOk then
    entries.filter (fun e => !e.2 || e.1 = currentCommit || !oracle.removeOk e.1)
  else entries

/-- Model of `atomicSwitch(commit, releaseDir)`: if `releases/<commit>` already
exists (`os.Stat` succeeds whether the entry is a directory or a plain
file), repoint `current` and prune; otherwise rename the temporary tree
to `releases/<commit>`, repoint `current`, and prune.  `none` models the
error return (the rename fails when the source tree is gone); the
symlink operations are modelled as succeeding, while the cleanup's
logged-only failures come from the oracle. -/
def atomicSwitch (oracle : FsOracle) (commit : String) (releasesDir : String)
    (fs : ReleasesFS) : Option ReleasesFS :=
  let target := releasesDir ++ "/" ++ commit
  if fs.entries.any (fun e => e.1 = commit) then
    some { entries := cleanupOldReleases oracle fs.entries commit
           current := some target
           tempExists := fs.tempExists }
  else if fs.tempExists then
    some { entries := cleanupOldReleases oracle ((commit, true) :: fs.entries) commit
           current := some target
           tempExists := false }
  else none

end Release

/-! ## Control loop (internal/cmd/cmd.go, reconcileOnce) -/

namespace Cycle

/-- Lifecycle steps of one reconciliation cycle, recorded in order. -/
inductive Ev where
  | clone (commit : String)
  | healthCheck
  | stateUpdate (commit : String) (projects : List String)
  | runPre
  | runFailure
  | runSuccess
  | reconcile
  | atomicSwitch (commit : String)
deriving DecidableEq

/-- The persisted deployment state: the last applied commit and the
per-project last-applied commits (timestamps omitted). -/
structure DeployState where
  lastCommit : String
  projects : List (String × String)
deriving DecidableEq

/-- Assoc-list update of one per-project entry. -/
def setProj : List (String × String) → String → String → List (String × String)
  | [], p, c => [(p, c)]
  | (q, v) :: rest, p, c =>
    if q = p then (p, c) :: rest else (q, v) :: setProj rest p c

/-- Model of `state.UpdateWithProjects(commit, reconciled)`: sets the global
commit and merges the supplied projects into the per-project map. -/
def updateWithProjects (st : DeployState) (commit : String)
    (reconciled : List String) : DeployState :=
  { lastCommit := commit
    projects := reconciled.foldl (fun m p => setProj m p commit) st.projects }

/-- The oracles of one cycle: outcomes of the external steps
(`lock.Acquire`, `config.Load`, `state.Init`, `git.Clone`,
`ValidateComposePath`, `GetChangedProjects`, the two `state.Save` calls,
the hooks, the reconciler, and the atomic switch).
`changedResult = none` models a change-detection error (treated as
reconcile-all); `some none` models the Go `nil` slice; `some (some l)` a
concrete list. -/
structure CycleEnv where
  lockOk : Bool
  cfgOk : Bool
  initOk : Bool
  cloneResult : Option String
  validateOk : Bool
  changedResult : Option (Option (List String))
  saveOk1 : Bool
  saveOk2 : Bool
  preOk : Bool
  reconcileResult : Option (List String)
  switchOk : Bool
  successHookOk : Bool
  failureHookOk : Bool
  postUpdateOk : Bool
  healthOk : Bool

/-- The effective changed-projects filter after the error handling in
`reconcileOnce`: a detection error collapses to `nil` (reconcile all). -/
def effChanged (env : CycleEnv) : Option (List String) :=
  match env.changedResult with
  | none => none
  | some cp => cp

/-- Result of one cycle: success flag, final persisted state, and the
ordered trace of lifecycle steps. -/
structure CycleResult where
  ok : Bool
  state : DeployState
  trace : List Ev
deriving DecidableEq

/-- Model of `reconcileOnce(dryRun)` from internal/cmd/cmd.go, step for step:
acquire the lock, load config, init and load state, clone, compare the
fetched commit with `state.last_commit` (no-change branch runs only the
health check), validate the subtree, detect changed projects, handle the
empty-change branch, persist the new commit speculatively, run the pre
hook, reconcile, switch atomically, persist the reconciled list, and run
the success hook.  Hook failures other than `pre` are logged only. -/
def reconcileOnce (dryRun : Bool) (env : CycleEnv) (st : DeployState) : CycleResult :=
  if !env.lockOk then ⟨false, st, []⟩
  else if !env.cfgOk then ⟨false, st, []⟩
  else if !env.initOk then ⟨false, st, []⟩
  else
    match env.cloneResult with
    | none => ⟨false, st, []⟩
    | some newCommit =>
      if newCommit = st.lastCommit then
        ⟨true, st,
          if dryRun then [Ev.clone newCommit] else [Ev.clone newCommit, Ev.healthCheck]⟩
      else if !env.validateOk then ⟨false, st, [Ev.clone newCommit]⟩
      else
        let changed := effChanged env
        if changed = some [] then
          if dryRun then ⟨true, st, [Ev.clone newCommit]⟩
          else if env.saveOk1 then
            ⟨true, updateWithProjects st newCommit [],
              [Ev.clone newCommit, Ev.stateUpdate newCommit []]⟩
          else ⟨false, st, [Ev.clone newCommit]⟩
        else if dryRun then
          if !env.preOk then
            ⟨false, st, [Ev.clone newCommit, Ev.runPre, Ev.runFailure]⟩
          else
            match env.reconcileResult with
            | none =>
              ⟨false, st, [Ev.clone newCommit, Ev.runPre, Ev.reconcile, Ev.runFailure]⟩
            | some _ =>
              ⟨true, st, [Ev.clone newCommit, Ev.runPre, Ev.reconcile, Ev.runSuccess]⟩
        else
          let toProcess := changed.getD []
          if !env.saveOk1 then ⟨false, st, [Ev.clone newCommit]⟩
          else
            let st1 := updateWithProjects st newCommit toProcess
            let t0 := [Ev.clone newCommit, Ev.stateUpdate newCommit toProcess]
            if !env.preOk then ⟨false, st1, t0 ++ [Ev.runPre, Ev.runFailure]⟩
            else
              match env.reconcileResult with
              | none => ⟨false, st1, t0 ++ [Ev.runPre, Ev.reconcile, Ev.runFailure]⟩
              | some reconciled =>
                if !env.switchOk then
                  ⟨false, st1, t0 ++ [Ev.runPre, Ev.reconcile, Ev.runFailure]⟩
                else if !env.saveOk2 then
                  ⟨false, st1, t0 ++ [Ev.runPre, Ev.reconcile, Ev.atomicSwitch newCommit]⟩
                else
                  ⟨true, updateWithProjects st1 newCommit reconciled,
                    t0 ++ [Ev.runPre, Ev.reconcile, Ev.atomicSwitch newCommit,
                      Ev.stateUpdate newCommit reconciled, Ev.runSuccess]⟩

end Cycle

/-! ## Concrete scenarios used in closed instances of the theorems -/

/-- A docker state with a single unmanaged container whose name collides
with a `container_name:` entry of the desired project `web`, and an
up invocation that first fails with a name conflict. -/
def envConflict : Recon.RecEnv :=
  { containers := [⟨"cid1".data, "web-nginx".data, [], false, false, true⟩]
    desired := ["web".data]
    upOutcome := fun _ => Recon.UpOutcome.conflict true
    composeNames := fun _ => ["web-nginx".data]
    psOk := true
    dryRun := false }

/-- A docker state with one managed running container of project
`legacy` that is no longer desired. -/
def envOrphan : Recon.RecEnv :=
  { containers := [⟨"cid2".data, "legacy-ctr".data, "legacy".data, true, false, true⟩]
    desired := []
    upOutcome := fun _ => Recon.UpOutcome.ok
    composeNames := fun _ => []
    psOk := true
    dryRun := false }

/-- A filesystem oracle whose listing and removals all succeed. -/
def oracleFsOk : Release.FsOracle :=
  { readDirOk := true, removeOk := fun _ => true }

/-- A filesystem oracle whose listing succeeds but whose `RemoveAll`
calls all fail (every failure is only logged by the cleanup). -/
def oracleRmFail : Release.FsOracle :=
  { readDirOk := true, removeOk := fun _ => false }

/-- A cycle whose fetched commit equals the stored commit. -/
def envNoChange : Cycle.CycleEnv :=
  { lockOk := true, cfgOk := true, initOk := true
    cloneResult := some "aaa", validateOk := true
    changedResult := some none, saveOk1 := true, saveOk2 := true
    preOk := true, reconcileResult := some [], switchOk := true
    successHookOk := true, failureHookOk := true, postUpdateOk := true
    healthOk := false }

/-- The state matching `envNoChange`. -/
def stNoChange : Cycle.DeployState := { lastCommit := "aaa", projects := [] }

/-- A change-bearing cycle (stored commit `c1`, fetched commit `c2`,
project `web` changed) whose pre hook exits non-zero. -/
def envPreFail : Cycle.CycleEnv :=
  { lockOk := true, cfgOk := true, initOk := true
    cloneResult := some "c2", validateOk := true
    changedResult := some (some ["web"]), saveOk1 := true, saveOk2 := true
    preOk := false, reconcileResult := some ["web"], switchOk := true
    successHookOk := true, failureHookOk := true, postUpdateOk := true
    healthOk := true }

/-- The prior state for the change-bearing scenarios. -/
def stOld : Cycle.DeployState := { lastCommit := "c1", projects := [] }

/-! ## Helper lemmas -/

theorem goSplitSlash_ne_nil (s : GoStr) : goSplitSlash s ≠ [] := by
  cases s with
  | nil => simp [goSplitSlash]
  | cons c rest =>
    simp only [goSplitSlash]
    cases h : goSplitSlash rest with
    | nil => simp
    | cons p ps =>
      by_cases hc : c = '/' <;> simp [hc]

theorem goSplitSlash_headI (s : GoStr) :
    (goSplitSlash s).headI = s.takeWhile (fun c => !(c = '/' : Bool)) := by
  induction s with
  | nil => simp [goSplitSlash]
  | cons c rest ih =>
    simp only [goSplitSlash]
    cases h : goSplitSlash rest with
    | nil => exact absurd h (goSplitSlash_ne_nil rest)
    | cons p ps =>
      by_cases hc : c = '/'
      · simp [hc, List.takeWhile]
      · simp only [if_neg hc, List.headI, List.takeWhile]
        simp only [h, List.headI] at ih
        simp [hc, ih]

theorem mem_insertSorted (a x : GoStr) (l : List GoStr) :
    a ∈ insertSorted x l ↔ a = x ∨ a ∈ l := by
  induction l with
  | nil => simp [insertSorted]
  | cons y ys ih =>
    simp only [insertSorted]
    by_cases h : leGoStr x y = true
    · simp [h]
    · simp only [if_neg h, List.mem_cons, ih]
      tauto

theorem mem_sortGoStr (a : GoStr) (l : List GoStr) :
    a ∈ sortGoStr l ↔ a ∈ l := by
  induction l with
  | nil => simp [sortGoStr]
  | cons x xs ih =>
    simp only [sortGoStr, List.foldr] at *
    rw [mem_insertSorted, ih, List.mem_cons]

theorem dropWhile_all_true_append (pred : Char → Bool) (l1 l2 : List Char)
    (h : ∀ c ∈ l1, pred c = true) :
    (l1 ++ l2).dropWhile pred = l2.dropWhile pred := by
  induction l1 with
  | nil => rfl
  | cons c cs ih =>
    have hc : pred c = true := h c (by simp)
    simp only [List.cons_append, List.dropWhile, hc]
    exact ih (fun d hd => h d (by simp [hd]))

theorem dirPath_append_no_slash (p s : GoStr) (hp : p ≠ [])
    (hs : ∀ c ∈ s, ¬c = '/') :
    Config.dirPath (p ++ '/' :: s) = p := by
  unfold Config.dirPath
  have hrev : (p ++ '/' :: s).reverse = s.reverse ++ '/' :: p.reverse := by
    rw [List.reverse_append, List.reverse_cons, List.append_assoc]
    rfl
  rw [hrev]
  have hall : ∀ c ∈ s.reverse, (!(c = '/' : Bool)) = true := by
    intro c hc
    simp only [Bool.not_eq_true', decide_eq_false_iff_not]
    exact hs c (List.mem_reverse.mp hc)
  rw [dropWhile_all_true_append _ _ _ hall]
  have hstop : ('/' :: p.reverse).dropWhile (fun c => !(c = '/' : Bool)) =
      '/' :: p.reverse := by
    simp [List.dropWhile]
  rw [hstop]
  have hne : ¬('/' :: p.reverse = []) := by simp
  rw [if_neg hne]
  have hdrop : ('/' :: p.reverse).drop 1 = p.reverse := rfl
  rw [hdrop]
  have hpr : ¬(p.reverse = []) := by simpa using hp
  rw [if_neg hpr, List.reverse_reverse]

theorem cycle_nochange_aux (dryRun : Bool) (env : Cycle.CycleEnv)
    (st : Cycle.DeployState) (c : String)
    (hl : env.lockOk = true) (hc : env.cfgOk = true) (hi : env.initOk = true)
    (hclone : env.cloneResult = some c) (heq : c = st.lastCommit) :
    Cycle.reconcileOnce dryRun env st =
      ⟨true, st,
        if dryRun then [Cycle.Ev.clone c]
        else [Cycle.Ev.clone c, Cycle.Ev.healthCheck]⟩ := by
  unfold Cycle.reconcileOnce
  rw [hl, hc, hi, hclone]
  simp [heq]

/-! ## Claim C7: clone depth -/

/-- C7 counterexample: the claim asserts the clone depth is at least 5,
but `Clone` in internal/git/git.go requests a shallow depth of exactly 1. -/
theorem cloneOptions_depth_counterexample :
    (Git.cloneOptions "https://example.com/r.git" "main").depth = 1 ∧
    ¬5 ≤ (Git.cloneOptions "https://example.com/r.git" "main").depth := by
  exact ⟨rfl, by decide⟩

/-- C7 (amended): `Clone` materialises a single-branch shallow working
tree of the configured branch with clone depth 1, not a depth of at
least 5. -/
theorem cloneOptions_single_branch_depth_one (url branch : String) :
    (Git.cloneOptions url branch).singleBranch = true ∧
    (Git.cloneOptions url branch).depth = 1 ∧
    (Git.cloneOptions url branch).referenceName = "refs/heads/" ++ branch :=
  ⟨rfl, rfl, rfl⟩

/-! ## Claim C8: state store write pattern -/

/-- C8 counterexample: the write issued by `state.Save` for a concrete
record is a single direct write to the state file, not the claimed
write-to-temporary-then-rename pattern. -/
theorem stateSave_not_atomic_counterexample :
    ¬StateStore.atomicWritePattern
      (StateStore.saveOps ⟨"1111111111111111111111111111111111111111", "0.1.0"⟩)
      StateStore.statePath := by
  rintro ⟨tmp, data, -, h⟩
  simp [StateStore.saveOps] at h

/-- C8 (amended): every write of the deployment-state record is a single
direct `os.WriteFile` of the marshalled record to the state file; no
temporary file and no rename are involved. -/
theorem stateSave_direct_write (st : StateStore.StateRec) :
    StateStore.saveOps st =
      [StateStore.FsOp.write StateStore.statePath (StateStore.marshalState st)] :=
  rfl

/-! ## Claim C10: lock release idempotence -/

/-- C10 counterexample: releasing an acquired lock handle succeeds once,
but the second release call returns an error instead of succeeding as a
no-op, because `Release` never clears the handle's file and `flock` on
the closed descriptor fails. -/
theorem lockRelease_idempotence_counterexample :
    (Lock.Release Lock.acquiredLock).1 = none ∧
    (Lock.Release (Lock.Release Lock.acquiredLock).2).1 ≠ none := by
  exact ⟨rfl, by decide⟩

/-- C10 (amended): for an acquired (open) handle the first `Release`
succeeds; the second call leaves the handle unchanged but returns an
error rather than succeeding.  Only a handle with no file is released as
a successful no-op. -/
theorem lockRelease_second_call_errors (f : Lock.GoFile) (hopen : f.closed = false) :
    (Lock.Release ⟨some f⟩).1 = none ∧
    (Lock.Release ⟨some f⟩).2 = ⟨some ⟨true⟩⟩ ∧
    (Lock.Release (Lock.Release ⟨some f⟩).2).1 = some "failed to release lock" ∧
    (Lock.Release (Lock.Release ⟨some f⟩).2).2 = (Lock.Release ⟨some f⟩).2 ∧
    Lock.Release ⟨none⟩ = (none, ⟨none⟩) := by
  cases f
  subst hopen
  exact ⟨rfl, rfl, rfl, rfl, rfl⟩

/-- C10 witness: the amended statement at the concrete acquired handle. -/
theorem lockRelease_second_call_errors_witness :
    (Lock.Release ⟨some ⟨false⟩⟩).1 = none ∧
    (Lock.Release ⟨some ⟨false⟩⟩).2 = ⟨some ⟨true⟩⟩ ∧
    (Lock.Release (Lock.Release ⟨some ⟨false⟩⟩).2).1 = some "failed to release lock" ∧
    (Lock.Release (Lock.Release ⟨some ⟨false⟩⟩).2).2 = (Lock.Release ⟨some ⟨false⟩⟩).2 ∧
    Lock.Release ⟨none⟩ = (none, ⟨none⟩) :=
  lockRelease_second_call_errors ⟨false⟩ rfl

/-! ## Claim C9: repository path normalisation -/

/-- C9 counterexample: for the configured path `"myapps"` the scan root
is `"myapps"` itself (the normalisation keeps any path that merely ends
in the characters `apps`), not `"myapps/apps"` as claimed, and the hooks
directory is `"hooks"`, not `"myapps/hooks"`. -/
theorem repoPath_normalisation_counterexample :
    Config.normalizeRepoPath "myapps".data = "myapps".data ∧
    Config.hooksBase "myapps".data = "hooks".data ∧
    ¬Config.specC9 "myapps".data := by
  refine ⟨by decide, by decide, by decide⟩

/-- C9 (amended): after loading, the scan root is `"apps"` for an empty
or `"."` path, the path itself when it already ends in `"apps"`, and
`<path>/apps` otherwise; in the last case hook files are resolved under
`<path>/hooks`. -/
theorem repoPath_normalisation (p : GoStr) :
    ((p = [] ∨ p = ['.']) →
      Config.normalizeRepoPath p = "apps".data ∧ Config.hooksBase p = "hooks".data) ∧
    (¬p = [] → ¬p = ['.'] → ("apps".data).isSuffixOf p = true →
      Config.normalizeRepoPath p = p) ∧
    (¬p = [] → ¬p = ['.'] → ("apps".data).isSuffixOf p = false →
      Config.normalizeRepoPath p = p ++ '/' :: "apps".data ∧
      Config.hooksBase p = p ++ '/' :: "hooks".data) := by
  refine ⟨?_, ?_, ?_⟩
  · intro h
    have h1 : Config.normalizeRepoPath p = "apps".data := by
      unfold Config.normalizeRepoPath
      rw [if_pos h]
    refine ⟨h1, ?_⟩
    unfold Config.hooksBase
    rw [h1]
    decide
  · intro h0 h1 hsuf
    unfold Config.normalizeRepoPath
    rw [if_neg (by tauto), if_pos hsuf]
  · intro h0 h1 hsuf
    have h2 : Config.normalizeRepoPath p = p ++ '/' :: "apps".data := by
      unfold Config.normalizeRepoPath
      rw [if_neg (by tauto), if_neg (by simp [hsuf]), Config.joinPath, if_neg h0]
    refine ⟨h2, ?_⟩
    unfold Config.hooksBase
    rw [h2, dirPath_append_no_slash p ("apps".data) h0 (by decide)]
    unfold Config.adjustBase
    rw [if_neg h1]
    unfold Config.joinPath
    rw [if_neg h0]

/-- C9 witness: the amended statement evaluated at the path `"vps0"`. -/
theorem repoPath_normalisation_witness :
    Config.normalizeRepoPath "vps0".data = "vps0".data ++ '/' :: "apps".data ∧
    Config.hooksBase "vps0".data = "vps0".data ++ '/' :: "hooks".data :=
  (repoPath_normalisation "vps0".data).2.2 (by decide) (by decide) (by decide)

/-! ## Claim C4: atomic switch invariant -/

/-- C4 counterexample: two successful switches violating the claimed
invariant.  First, with every `RemoveAll` failing (the cleanup only
logs such failures), the switch for commit `"c"` succeeds yet the stale
release directory `"old"` survives.  Second, with a plain file squatting
on `releases/c`, the `os.Stat` branch succeeds and `current` is pointed
at that file: no release directory named `"c"` exists afterwards. -/
theorem atomicSwitch_claim_counterexample :
    Release.atomicSwitch oracleRmFail "c" "releases"
        ⟨[("old", true)], some "x", true⟩ =
      some ⟨[("c", true), ("old", true)], some ("releases" ++ "/" ++ "c"), false⟩ ∧
    ¬"old" = "c" ∧
    Release.atomicSwitch oracleFsOk "c" "releases"
        ⟨[("c", false)], some "x", true⟩ =
      some ⟨[("c", false)], some ("releases" ++ "/" ++ "c"), true⟩ :=
  ⟨by decide, by decide, by decide⟩

/-- C4 (amended): after every successful atomic switch the `current`
link points to `releases/<commit>`.  The pruning is best-effort: when
the listing of `releases/` succeeds, every removal succeeds, and no
plain file occupies `releases/<commit>`, the applied release directory
exists and every other subdirectory of `releases/` has been removed. -/
theorem atomicSwitch_current_link_and_prune (oracle : Release.FsOracle)
    (commit releasesDir : String) (fs fs2 : Release.ReleasesFS)
    (h : Release.atomicSwitch oracle commit releasesDir fs = some fs2) :
    fs2.current = some (releasesDir ++ "/" ++ commit) ∧
    (oracle.readDirOk = true →
      (∀ e ∈ fs.entries, e.2 = true → ¬e.1 = commit → oracle.removeOk e.1 = true) →
      (∀ b, (commit, b) ∈ fs.entries → b = true) →
      (commit, true) ∈ fs2.entries ∧ ∀ e ∈ fs2.entries, e.2 = true → e.1 = commit) := by
  unfold Release.atomicSwitch at h
  by_cases hex : fs.entries.any (fun e => decide (e.1 = commit)) = true
  · rw [if_pos hex] at h
    cases h
    refine ⟨rfl, fun hrd hrm hdir => ?_⟩
    obtain ⟨e, he, hec⟩ := List.any_eq_true.mp hex
    have hec : e.1 = commit := of_decide_eq_true hec
    have hmem : (commit, true) ∈ fs.entries := by
      have heq : e = (commit, e.2) := by
        cases e
        simp only at hec
        rw [hec]
      rw [heq] at he
      have := hdir e.2 he
      rwa [this] at he
    unfold Release.cleanupOldReleases
    rw [if_pos hrd]
    refine ⟨List.mem_filter.mpr ⟨hmem, by simp⟩, ?_⟩
    intro e hef he2
    obtain ⟨hemem, hpred⟩ := List.mem_filter.mp hef
    simp only [he2, Bool.not_true, Bool.false_or, Bool.or_eq_true,
      Bool.not_eq_true', decide_eq_true_eq] at hpred
    rcases hpred with hpc | hrf
    · exact hpc
    · by_cases hpc : e.1 = commit
      · exact hpc
      · exact absurd (hrm e hemem he2 hpc) (by rw [hrf]; exact Bool.false_ne_true)
  · rw [if_neg hex] at h
    by_cases htmp : fs.tempExists = true
    · rw [if_pos htmp] at h
      cases h
      refine ⟨rfl, fun hrd hrm _ => ?_⟩
      unfold Release.cleanupOldReleases
      rw [if_pos hrd]
      refine ⟨List.mem_filter.mpr ⟨List.mem_cons_self _ _, by simp⟩, ?_⟩
      intro e hef he2
      obtain ⟨hemem, hpred⟩ := List.mem_filter.mp hef
      simp only [he2, Bool.not_true, Bool.false_or, Bool.or_eq_true,
        Bool.not_eq_true', decide_eq_true_eq] at hpred
      rcases hpred with hpc | hrf
      · exact hpc
      · rcases List.mem_cons.mp hemem with rfl | hemem2
        · rfl
        · by_cases hpc : e.1 = commit
          · exact hpc
          · exact absurd (hrm e hemem2 he2 hpc) (by rw [hrf]; exact Bool.false_ne_true)
    · rw [if_neg htmp] at h
      cases h

/-- C4 witness: a concrete switch for commit `"c"` under an all-success
oracle, with one stale release directory and one non-directory entry
present beforehand; afterwards `"c"` is the only subdirectory. -/
theorem atomicSwitch_current_link_and_prune_witness :
    (Release.ReleasesFS.mk [("c", true), ("notes.txt", false)]
        (some "releases/c") false).current = some ("releases" ++ "/" ++ "c") ∧
    (("c", true) ∈ (Release.ReleasesFS.mk [("c", true), ("notes.txt", false)]
        (some "releases/c") false).entries ∧
      ∀ e ∈ (Release.ReleasesFS.mk [("c", true), ("notes.txt", false)]
          (some "releases/c") false).entries,
        e.2 = true → e.1 = "c") :=
  ⟨(atomicSwitch_current_link_and_prune oracleFsOk "c" "releases"
      ⟨[("old", true), ("notes.txt", false)], some "x", true⟩
      (Release.ReleasesFS.mk [("c", true), ("notes.txt", false)]
        (some "releases/c") false) (by decide)).1,
    (atomicSwitch_current_link_and_prune oracleFsOk "c" "releases"
      ⟨[("old", true), ("notes.txt", false)], some "x", true⟩
      (Release.ReleasesFS.mk [("c", true), ("notes.txt", false)]
        (some "releases/c") false) (by decide)).2
      (by decide) (by decide) (by decide)⟩

/-! ## Claim C6: no-op cycle -/

/-- C6: when the fetched commit equals `state.last_commit`, the cycle
succeeds, the persisted state is untouched (`Update` is not called), and
the trace holds nothing but the clone and the health check — no hooks,
no reconciliation, no switch; the health check's own outcome does not
affect the result. -/
theorem noop_cycle (dryRun : Bool) (env : Cycle.CycleEnv)
    (st : Cycle.DeployState) (c : String)
    (hl : env.lockOk = true) (hc : env.cfgOk = true) (hi : env.initOk = true)
    (hclone : env.cloneResult = some c) (heq : c = st.lastCommit) :
    (Cycle.reconcileOnce dryRun env st).ok = true ∧
    (Cycle.reconcileOnce dryRun env st).state = st ∧
    (∀ cm ps, Cycle.Ev.stateUpdate cm ps ∉ (Cycle.reconcileOnce dryRun env st).trace) ∧
    (∀ e ∈ (Cycle.reconcileOnce dryRun env st).trace,
        e = Cycle.Ev.clone c ∨ e = Cycle.Ev.healthCheck) ∧
    (dryRun = false → Cycle.Ev.healthCheck ∈ (Cycle.reconcileOnce dryRun env st).trace) := by
  rw [cycle_nochange_aux dryRun env st c hl hc hi hclone heq]
  cases dryRun <;> simp

/-- C6 witness: the no-op cycle at a concrete environment whose stored
and fetched commits are both `"aaa"` (with a failing health check). -/
theorem noop_cycle_witness :
    (Cycle.reconcileOnce false envNoChange stNoChange).ok = true ∧
    (Cycle.reconcileOnce false envNoChange stNoChange).state = stNoChange ∧
    (∀ cm ps, Cycle.Ev.stateUpdate cm ps ∉
        (Cycle.reconcileOnce false envNoChange stNoChange).trace) ∧
    (∀ e ∈ (Cycle.reconcileOnce false envNoChange stNoChange).trace,
        e = Cycle.Ev.clone "aaa" ∨ e = Cycle.Ev.healthCheck) ∧
    (false = false → Cycle.Ev.healthCheck ∈
        (Cycle.reconcileOnce false envNoChange stNoChange).trace) :=
  noop_cycle false envNoChange stNoChange "aaa" rfl rfl rfl rfl rfl

/-! ## Claim C3: speculative state update and forward progress -/

/-- C3: in a change-bearing cycle (new commit, changed projects not the
empty set) the state store is updated to the new commit before the pre
hook and the reconciler run; if the pre hook, the reconciler, or the
atomic switch then fails, `state.last_commit` still holds the new commit
and any subsequent cycle fetching the same commit takes the no-change
branch (health check only). -/
theorem speculative_state_update (env : Cycle.CycleEnv)
    (st : Cycle.DeployState) (c : String)
    (hl : env.lockOk = true) (hc : env.cfgOk = true) (hi : env.initOk = true)
    (hclone : env.cloneResult = some c) (hnew : ¬c = st.lastCommit)
    (hv : env.validateOk = true)
    (hch : ¬Cycle.effChanged env = some [])
    (hsave : env.saveOk1 = true) :
    (∃ rest, (Cycle.reconcileOnce false env st).trace =
      Cycle.Ev.clone c :: Cycle.Ev.stateUpdate c ((Cycle.effChanged env).getD []) ::
        Cycle.Ev.runPre :: rest) ∧
    ((env.preOk = false ∨ env.reconcileResult = none ∨ env.switchOk = false) →
      (Cycle.reconcileOnce false env st).ok = false ∧
      (Cycle.reconcileOnce false env st).state.lastCommit = c ∧
      (∀ env2 : Cycle.CycleEnv, env2.lockOk = true → env2.cfgOk = true →
        env2.initOk = true → env2.cloneResult = some c →
        Cycle.reconcileOnce false env2 (Cycle.reconcileOnce false env st).state =
          ⟨true, (Cycle.reconcileOnce false env st).state,
            [Cycle.Ev.clone c, Cycle.Ev.healthCheck]⟩)) := by
  unfold Cycle.reconcileOnce
  rw [hl, hc, hi, hclone, hv, hsave]
  simp only [Bool.not_true, Bool.not_false, if_neg hnew, if_neg hch]
  simp only [Bool.false_eq_true, if_false, if_true]
  cases hpre : env.preOk with
  | false =>
    refine ⟨⟨_, rfl⟩, fun _ => ⟨rfl, rfl, fun env2 h2l h2c h2i h2cl => ?_⟩⟩
    exact cycle_nochange_aux false env2 _ c h2l h2c h2i h2cl rfl
  | true =>
    cases hrec : env.reconcileResult with
    | none =>
      refine ⟨⟨_, rfl⟩, fun _ => ⟨rfl, rfl, fun env2 h2l h2c h2i h2cl => ?_⟩⟩
      exact cycle_nochange_aux false env2 _ c h2l h2c h2i h2cl rfl
    | some reconciled =>
      cases hsw : env.switchOk with
      | false =>
        refine ⟨⟨_, rfl⟩, fun _ => ⟨rfl, rfl, fun env2 h2l h2c h2i h2cl => ?_⟩⟩
        exact cycle_nochange_aux false env2 _ c h2l h2c h2i h2cl rfl
      | true =>
        cases hs2 : env.saveOk2 with
        | false =>
          refine ⟨⟨_, rfl⟩, fun hbad => ?_⟩
          rcases hbad with h | h | h <;> simp_all
        | true =>
          refine ⟨⟨_, rfl⟩, fun hbad => ?_⟩
          rcases hbad with h | h | h <;> simp_all

/-- C3 witness: the concrete change-bearing cycle `envPreFail` whose pre
hook fails; the state ends at commit `"c2"` and a repeat cycle over
`"c2"` is a health-check-only no-op. -/
theorem speculative_state_update_witness :
    (∃ rest, (Cycle.reconcileOnce false envPreFail stOld).trace =
      Cycle.Ev.clone "c2" ::
        Cycle.Ev.stateUpdate "c2" ((Cycle.effChanged envPreFail).getD []) ::
          Cycle.Ev.runPre :: rest) ∧
    ((envPreFail.preOk = false ∨ envPreFail.reconcileResult = none ∨
        envPreFail.switchOk = false) →
      (Cycle.reconcileOnce false envPreFail stOld).ok = false ∧
      (Cycle.reconcileOnce false envPreFail stOld).state.lastCommit = "c2" ∧
      (∀ env2 : Cycle.CycleEnv, env2.lockOk = true → env2.cfgOk = true →
        env2.initOk = true → env2.cloneResult = some "c2" →
        Cycle.reconcileOnce false env2 (Cycle.reconcileOnce false envPreFail stOld).state =
          ⟨true, (Cycle.reconcileOnce false envPreFail stOld).state,
            [Cycle.Ev.clone "c2", Cycle.Ev.healthCheck]⟩)) :=
  speculative_state_update envPreFail stOld "c2" rfl rfl rfl rfl
    (by decide) rfl (by decide) rfl

/-! ## Claim C5: hook exit-code policy -/

/-- C5: a non-zero pre hook is fatal — the cycle fails, the failure hook
runs, and the reconciler is never invoked; the outcomes of the success,
failure, and post_update hooks never influence the cycle's result or the
persisted state. -/
theorem hook_exit_code_policy :
    (∀ (dryRun : Bool) (env : Cycle.CycleEnv) (st : Cycle.DeployState) (c : String),
      env.lockOk = true → env.cfgOk = true → env.initOk = true →
      env.cloneResult = some c → ¬c = st.lastCommit → env.validateOk = true →
      ¬Cycle.effChanged env = some [] → (dryRun = false → env.saveOk1 = true) →
      env.preOk = false →
      (Cycle.reconcileOnce dryRun env st).ok = false ∧
      Cycle.Ev.runFailure ∈ (Cycle.reconcileOnce dryRun env st).trace ∧
      Cycle.Ev.reconcile ∉ (Cycle.reconcileOnce dryRun env st).trace) ∧
    (∀ (dryRun : Bool) (env : Cycle.CycleEnv) (st : Cycle.DeployState) (x y z : Bool),
      Cycle.reconcileOnce dryRun
          { env with successHookOk := x, failureHookOk := y, postUpdateOk := z } st =
        Cycle.reconcileOnce dryRun env st) := by
  constructor
  · intro dryRun env st c hl hc hi hclone hnew hv hch hsave hpre
    unfold Cycle.reconcileOnce
    rw [hl, hc, hi, hclone, hv, hpre]
    simp only [Bool.not_true, Bool.not_false, if_neg hnew, if_neg hch]
    cases dryRun with
    | true => simp
    | false =>
      rw [hsave rfl]
      simp
  · intro dryRun env st x y z
    cases env
    rfl

/-- C5 witness: the policy at the concrete failing-pre environment. -/
theorem hook_exit_code_policy_witness :
    ((Cycle.reconcileOnce false envPreFail stOld).ok = false ∧
      Cycle.Ev.runFailure ∈ (Cycle.reconcileOnce false envPreFail stOld).trace ∧
      Cycle.Ev.reconcile ∉ (Cycle.reconcileOnce false envPreFail stOld).trace) ∧
    Cycle.reconcileOnce false
        { envPreFail with successHookOk := false, failureHookOk := false, postUpdateOk := false }
        stOld =
      Cycle.reconcileOnce false envPreFail stOld :=
  ⟨hook_exit_code_policy.1 false envPreFail stOld "c2" rfl rfl rfl rfl
      (by decide) rfl (by decide) (fun _ => rfl) rfl,
    hook_exit_code_policy.2 false envPreFail stOld false false false⟩

/-! ## Claim C1: change detection -/

theorem mem_insertProject (acc : List GoStr) (p x : GoStr) :
    p ∈ Git.insertProject acc x ↔ p ∈ acc ∨ p = x := by
  unfold Git.insertProject
  by_cases h : x ∈ acc
  · rw [if_pos h]
    constructor
    · exact Or.inl
    · rintro (hp | rfl)
      · exact hp
      · exact h
  · rw [if_neg h]
    simp [List.mem_append]

theorem mem_collectPath (pre : GoStr) (acc : List GoStr) (path p : GoStr) :
    p ∈ Git.collectPath pre acc path ↔ p ∈ acc ∨ Git.pathHit pre path p := by
  simp only [Git.collectPath]
  by_cases h0 : path = []
  · simp [h0, Git.pathHit]
  · rw [if_neg h0]
    by_cases h1 : pre.isPrefixOf path = true
    · rw [if_pos h1]
      have htrim : goTrimPre path pre = path.drop pre.length := by
        unfold goTrimPre
        rw [if_pos h1]
      have hhead : (goSplitSlash (goTrimPre path pre)).headI =
          (path.drop pre.length).takeWhile (fun c => !(c = '/' : Bool)) := by
        rw [htrim, goSplitSlash_headI]
      by_cases h2 :
          (path.drop pre.length).takeWhile (fun c => !(c = '/' : Bool)) = []
      · rw [if_neg (by simp [hhead, h2])]
        simp [Git.pathHit, h0, h1, h2]
      · rw [if_pos ⟨List.length_pos.mpr (goSplitSlash_ne_nil _), by simp [hhead, h2]⟩]
        rw [mem_insertProject, hhead]
        unfold Git.pathHit
        constructor
        · rintro (hp | rfl)
          · exact Or.inl hp
          · exact Or.inr ⟨h0, h1, h2, rfl⟩
        · rintro (hp | ⟨-, -, -, rfl⟩)
          · exact Or.inl hp
          · exact Or.inr rfl
    · rw [if_neg h1]
      simp [Git.pathHit, h1]

theorem mem_foldl_collect (pre : GoStr) (changes : List Git.Change)
    (acc : List GoStr) (p : GoStr) :
    p ∈ changes.foldl
        (fun acc ch =>
          Git.collectPath pre (Git.collectPath pre acc ch.fromName) ch.toName) acc ↔
      p ∈ acc ∨ Git.codeChangedProject pre changes p := by
  induction changes generalizing acc with
  | nil => simp [Git.codeChangedProject]
  | cons ch chs ih =>
    simp only [List.foldl_cons]
    rw [ih, mem_collectPath, mem_collectPath]
    unfold Git.codeChangedProject
    simp only [List.mem_cons, List.not_mem_nil, or_false]
    constructor
    · rintro (((hp | hf) | ht) | ⟨ch2, hch2, hpath⟩)
      · exact Or.inl hp
      · exact Or.inr ⟨ch, Or.inl rfl, ch.fromName, Or.inl rfl, hf⟩
      · exact Or.inr ⟨ch, Or.inl rfl, ch.toName, Or.inr rfl, ht⟩
      · exact Or.inr ⟨ch2, Or.inr hch2, hpath⟩
    · rintro (hp | ⟨ch2, rfl | hch2, path, hpath, hhit⟩)
      · exact Or.inl (Or.inl (Or.inl hp))
      · rcases hpath with rfl | rfl
        · exact Or.inl (Or.inl (Or.inr hhit))
        · exact Or.inl (Or.inr hhit)
      · exact Or.inr ⟨ch2, hch2, path, hpath, hhit⟩

/-- C1 counterexample: between two distinct commits, a single change
whose `To` name is `apps/file` (a regular file directly under the
subtree, in no project directory) makes `GetChangedProjects` return the
project `file`, yet no path of the diff carries the claimed prefix
`apps/file/`. -/
theorem getChangedProjects_spec_counterexample :
    Git.GetChangedProjects "apps".data "a".data "b".data
        [⟨[], "apps/file".data⟩] = some ["file".data] ∧
    ¬Git.specChangedProject (Git.changedPre "apps".data)
        [⟨[], "apps/file".data⟩] "file".data :=
  ⟨by decide, by decide⟩

/-- C1 (amended): `GetChangedProjects` returns `nil` when the old commit
is empty, the empty list when the commits coincide, and otherwise
exactly the distinct first path components after the normalised prefix
over the changed `From`/`To` names (a changed file directly under the
subtree contributes its own name as a project). -/
theorem getChangedProjects_characterisation (appsPath oldCommit newCommit : GoStr)
    (changes : List Git.Change) :
    (oldCommit = [] →
      Git.GetChangedProjects appsPath oldCommit newCommit changes = none) ∧
    (¬oldCommit = [] → oldCommit = newCommit →
      Git.GetChangedProjects appsPath oldCommit newCommit changes = some []) ∧
    (¬oldCommit = [] → ¬oldCommit = newCommit →
      ∃ l, Git.GetChangedProjects appsPath oldCommit newCommit changes = some l ∧
        ∀ p, p ∈ l ↔ Git.codeChangedProject (Git.changedPre appsPath) changes p) := by
  refine ⟨?_, ?_, ?_⟩
  · intro h
    unfold Git.GetChangedProjects
    rw [if_pos h]
  · intro h0 h1
    unfold Git.GetChangedProjects
    rw [if_neg h0, if_pos h1]
  · intro h0 h1
    unfold Git.GetChangedProjects
    rw [if_neg h0, if_neg h1]
    refine ⟨_, rfl, fun p => ?_⟩
    rw [mem_foldl_collect]
    simp

/-- C1 witness: the characterisation applied between distinct commits to
a rename inside `apps/web` together with an unrelated change. -/
theorem getChangedProjects_characterisation_witness :
    ∃ l, Git.GetChangedProjects "apps".data "a".data "b".data
        [⟨"apps/web/x".data, "apps/web/y".data⟩, ⟨"readme".data, []⟩] = some l ∧
      ∀ p, p ∈ l ↔ Git.codeChangedProject (Git.changedPre "apps".data)
        [⟨"apps/web/x".data, "apps/web/y".data⟩, ⟨"readme".data, []⟩] p :=
  (getChangedProjects_characterisation "apps".data "a".data "b".data
    [⟨"apps/web/x".data, "apps/web/y".data⟩, ⟨"readme".data, []⟩]).2.2
    (by decide) (by decide)

/-! ## Claim C2: ownership containment -/

theorem mem_stopMarked (env : Recon.RecEnv) (p : GoStr) (cmd : Recon.DockerCmd)
    (h : cmd ∈ Recon.stopMarkedCmds env p) :
    ∃ cid, cmd = Recon.DockerCmd.stop cid := by
  unfold Recon.stopMarkedCmds at h
  split at h
  · simp at h
  · obtain ⟨c, -, rfl⟩ := List.mem_map.mp h
    exact ⟨c.cid, rfl⟩

theorem mem_cleanup (env : Recon.RecEnv) (p : GoStr) (cmd : Recon.DockerCmd)
    (h : cmd ∈ Recon.cleanupConflicting env p) :
    ∃ nm ∈ env.composeNames p, ∃ c ∈ env.containers,
      c.name = nm ∧ cmd = Recon.DockerCmd.rmForce c.cid := by
  unfold Recon.cleanupConflicting at h
  obtain ⟨nm, hnm, hmap⟩ := List.mem_filterMap.mp h
  obtain ⟨c, hfind, hb⟩ := Option.map_eq_some'.mp hmap
  subst hb
  refine ⟨nm, hnm, c, List.mem_of_find?_eq_some hfind, ?_, rfl⟩
  have hp := List.find?_some hfind
  simp only [decide_eq_true_eq] at hp
  exact hp

theorem mem_reconcileProject (env : Recon.RecEnv) (p : GoStr) (cmd : Recon.DockerCmd)
    (h : cmd ∈ (Recon.reconcileProject env p).2) :
    cmd = Recon.DockerCmd.composeUp p ∨ (∃ cid, cmd = Recon.DockerCmd.stop cid) ∨
      cmd ∈ Recon.cleanupConflicting env p := by
  unfold Recon.reconcileProject at h
  split at h
  · simp at h
  · split at h
    · rcases List.mem_cons.mp h with rfl | h2
      · exact Or.inl rfl
      · exact Or.inr (Or.inl (mem_stopMarked env p cmd h2))
    · rw [List.mem_singleton] at h
      subst h
      exact Or.inl rfl
    · split at h
      · rcases List.mem_append.mp h with h2 | h2
        · rcases List.mem_cons.mp h2 with rfl | h3
          · exact Or.inl rfl
          · rcases List.mem_append.mp h3 with h4 | h4
            · exact Or.inr (Or.inr h4)
            · rw [List.mem_singleton] at h4
              subst h4
              exact Or.inl rfl
        · exact Or.inr (Or.inl (mem_stopMarked env p cmd h2))
      · rcases List.mem_cons.mp h with rfl | h3
        · exact Or.inl rfl
        · rcases List.mem_append.mp h3 with h4 | h4
          · exact Or.inr (Or.inr h4)
          · rw [List.mem_singleton] at h4
            subst h4
            exact Or.inl rfl

theorem mem_startProject (env : Recon.RecEnv) (p : GoStr) (cmd : Recon.DockerCmd)
    (h : cmd ∈ (Recon.startProject env p).2) :
    cmd = Recon.DockerCmd.composeUp p := by
  unfold Recon.startProject at h
  split at h
  · simp at h
  · split at h <;> simpa using h

theorem reconcileLoop_cons (env : Recon.RecEnv) (fset : Option (List GoStr))
    (p : GoStr) (rest : List GoStr) :
    Recon.reconcileLoop env fset (p :: rest) =
      if Recon.skipProject fset p = true then Recon.reconcileLoop env fset rest
      else if (Recon.reconcileProject env p).1 = true then
        ((Recon.reconcileLoop env fset rest).1,
          p :: (Recon.reconcileLoop env fset rest).2.1,
          (Recon.reconcileProject env p).2 ++ (Recon.reconcileLoop env fset rest).2.2)
      else (false, [], (Recon.reconcileProject env p).2) := rfl

theorem mem_reconcileLoop (env : Recon.RecEnv) (fset : Option (List GoStr))
    (l : List GoStr) (cmd : Recon.DockerCmd)
    (h : cmd ∈ (Recon.reconcileLoop env fset l).2.2) :
    ∃ p ∈ l, cmd ∈ (Recon.reconcileProject env p).2 := by
  induction l with
  | nil => simp [Recon.reconcileLoop] at h
  | cons p rest ih =>
    rw [reconcileLoop_cons] at h
    by_cases hskip : Recon.skipProject fset p = true
    · rw [if_pos hskip] at h
      obtain ⟨q, hq, hcmd⟩ := ih h
      exact ⟨q, List.mem_cons_of_mem _ hq, hcmd⟩
    · rw [if_neg hskip] at h
      by_cases hok : (Recon.reconcileProject env p).1 = true
      · rw [if_pos hok] at h
        replace h : cmd ∈ (Recon.reconcileProject env p).2 ++
            (Recon.reconcileLoop env fset rest).2.2 := h
        rcases List.mem_append.mp h with h2 | h2
        · exact ⟨p, List.mem_cons_self _ _, h2⟩
        · obtain ⟨q, hq, hcmd⟩ := ih h2
          exact ⟨q, List.mem_cons_of_mem _ hq, hcmd⟩
      · rw [if_neg hok] at h
        replace h : cmd ∈ (Recon.reconcileProject env p).2 := h
        exact ⟨p, List.mem_cons_self _ _, h⟩

theorem startLoop_cons (env : Recon.RecEnv) (acc : List GoStr) (p : GoStr)
    (rest : List GoStr) :
    Recon.startLoop env acc (p :: rest) =
      if p ∈ acc then Recon.startLoop env acc rest
      else if Recon.hasExited env p = true then
        ((Recon.startLoop env
            (if (Recon.startProject env p).1 = true then acc ++ [p] else acc) rest).1,
          Recon.stopMarkedCmds env p ++ (Recon.startProject env p).2 ++
            (Recon.startLoop env
              (if (Recon.startProject env p).1 = true then acc ++ [p] else acc) rest).2)
      else ((Recon.startLoop env acc rest).1,
        Recon.stopMarkedCmds env p ++ (Recon.startLoop env acc rest).2) := rfl

theorem mem_startLoop (env : Recon.RecEnv) (acc l : List GoStr)
    (cmd : Recon.DockerCmd) (h : cmd ∈ (Recon.startLoop env acc l).2) :
    (∃ cid, cmd = Recon.DockerCmd.stop cid) ∨
      ∃ p, cmd = Recon.DockerCmd.composeUp p := by
  induction l generalizing acc with
  | nil => simp [Recon.startLoop] at h
  | cons p rest ih =>
    rw [startLoop_cons] at h
    by_cases hmem : p ∈ acc
    · rw [if_pos hmem] at h
      exact ih _ h
    · rw [if_neg hmem] at h
      by_cases hex : Recon.hasExited env p = true
      · rw [if_pos hex] at h
        replace h : cmd ∈ Recon.stopMarkedCmds env p ++ (Recon.startProject env p).2 ++
            (Recon.startLoop env
              (if (Recon.startProject env p).1 = true then acc ++ [p] else acc) rest).2 := h
        rcases List.mem_append.mp h with h2 | h2
        · rcases List.mem_append.mp h2 with h3 | h3
          · exact Or.inl (mem_stopMarked env p cmd h3)
          · exact Or.inr ⟨p, mem_startProject env p cmd h3⟩
        · exact ih _ h2
      · rw [if_neg hex] at h
        replace h : cmd ∈ Recon.stopMarkedCmds env p ++
            (Recon.startLoop env acc rest).2 := h
        rcases List.mem_append.mp h with h2 | h2
        · exact Or.inl (mem_stopMarked env p cmd h2)
        · exact ih _ h2

theorem healthLoop_cons (env : Recon.RecEnv) (p : GoStr) (rest : List GoStr) :
    Recon.healthLoop env (p :: rest) =
      if Recon.hasExited env p = true then
        ((if (Recon.startProject env p).1 = true then p :: (Recon.healthLoop env rest).1
            else (Recon.healthLoop env rest).1),
          Recon.stopMarkedCmds env p ++ (Recon.startProject env p).2 ++
            (Recon.healthLoop env rest).2)
      else ((Recon.healthLoop env rest).1,
        Recon.stopMarkedCmds env p ++ (Recon.healthLoop env rest).2) := rfl

theorem mem_healthLoop (env : Recon.RecEnv) (l : List GoStr)
    (cmd : Recon.DockerCmd) (h : cmd ∈ (Recon.healthLoop env l).2) :
    (∃ cid, cmd = Recon.DockerCmd.stop cid) ∨
      ∃ p, cmd = Recon.DockerCmd.composeUp p := by
  induction l with
  | nil => simp [Recon.healthLoop] at h
  | cons p rest ih =>
    rw [healthLoop_cons] at h
    by_cases hex : Recon.hasExited env p = true
    · rw [if_pos hex] at h
      replace h : cmd ∈ Recon.stopMarkedCmds env p ++ (Recon.startProject env p).2 ++
          (Recon.healthLoop env rest).2 := h
      rcases List.mem_append.mp h with h2 | h2
      · rcases List.mem_append.mp h2 with h3 | h3
        · exact Or.inl (mem_stopMarked env p cmd h3)
        · exact Or.inr ⟨p, mem_startProject env p cmd h3⟩
      · exact ih h2
    · rw [if_neg hex] at h
      replace h : cmd ∈ Recon.stopMarkedCmds env p ++ (Recon.healthLoop env rest).2 := h
      rcases List.mem_append.mp h with h2 | h2
      · exact Or.inl (mem_stopMarked env p cmd h2)
      · exact ih h2

theorem mem_downOrphans (env : Recon.RecEnv) (desired l : List GoStr)
    (cmd : Recon.DockerCmd) :
    cmd ∈ Recon.downOrphans env desired l ↔
      ∃ p ∈ l, ¬p ∈ desired ∧ env.dryRun = false ∧
        cmd = Recon.DockerCmd.composeDown p := by
  induction l with
  | nil => simp [Recon.downOrphans]
  | cons p rest ih =>
    unfold Recon.downOrphans
    by_cases hmem : p ∈ desired
    · rw [if_pos hmem, ih]
      constructor
      · rintro ⟨q, hq, hnd, hdr, rfl⟩
        exact ⟨q, List.mem_cons_of_mem _ hq, hnd, hdr, rfl⟩
      · rintro ⟨q, hq, hnd, hdr, rfl⟩
        rcases List.mem_cons.mp hq with rfl | hq2
        · exact absurd hmem hnd
        · exact ⟨q, hq2, hnd, hdr, rfl⟩
    · rw [if_neg hmem]
      by_cases hdr : env.dryRun = true
      · rw [if_pos hdr, ih]
        constructor
        · rintro ⟨q, hq, hnd, hdrf, rfl⟩
          exact ⟨q, List.mem_cons_of_mem _ hq, hnd, hdrf, rfl⟩
        · rintro ⟨q, hq, hnd, hdrf, rfl⟩
          rcases List.mem_cons.mp hq with rfl | hq2
          · rw [hdr] at hdrf
            cases hdrf
          · exact ⟨q, hq2, hnd, hdrf, rfl⟩
      · rw [if_neg hdr]
        rw [List.mem_cons, ih]
        constructor
        · rintro (rfl | ⟨q, hq, hnd, hdrf, rfl⟩)
          · exact ⟨p, List.mem_cons_self _ _, hmem,
              Bool.not_eq_true _ ▸ hdr, rfl⟩
          · exact ⟨q, List.mem_cons_of_mem _ hq, hnd, hdrf, rfl⟩
        · rintro ⟨q, hq, hnd, hdrf, rfl⟩
          rcases List.mem_cons.mp hq with rfl | hq2
          · exact Or.inl rfl
          · exact Or.inr ⟨q, hq2, hnd, hdrf, rfl⟩

theorem getRunningProjects_spec (env : Recon.RecEnv) (p : GoStr)
    (h : p ∈ Recon.getRunningProjects env) :
    ∃ c ∈ env.containers, c.managed = true ∧ c.running = true ∧ c.project = p := by
  unfold Recon.getRunningProjects at h
  split at h
  · rw [mem_sortGoStr] at h
    obtain ⟨hp, -⟩ := List.mem_filter.mp h
    obtain ⟨c, hc, rfl⟩ := List.mem_map.mp hp
    obtain ⟨hcmem, hflt⟩ := List.mem_filter.mp hc
    rw [Bool.and_eq_true] at hflt
    exact ⟨c, hcmem, hflt.1, hflt.2, rfl⟩
  · simp at h

theorem Reconcile_eq (env : Recon.RecEnv) (fset : Option (List GoStr)) :
    Recon.Reconcile env fset =
      if (Recon.reconcileLoop env fset env.desired).1 = true then
        (some (Recon.startLoop env
            (Recon.reconcileLoop env fset env.desired).2.1 env.desired).1,
          (Recon.reconcileLoop env fset env.desired).2.2 ++
            (Recon.startLoop env
              (Recon.reconcileLoop env fset env.desired).2.1 env.desired).2 ++
            Recon.downOrphans env env.desired (Recon.getRunningProjects env))
      else (none, (Recon.reconcileLoop env fset env.desired).2.2) := rfl

theorem down_notin_reconcileLoop (env : Recon.RecEnv) (fset : Option (List GoStr))
    (l : List GoStr) (p : GoStr) :
    ¬Recon.DockerCmd.composeDown p ∈ (Recon.reconcileLoop env fset l).2.2 := by
  intro h
  obtain ⟨q, -, hq⟩ := mem_reconcileLoop env fset l _ h
  rcases mem_reconcileProject env q _ hq with h1 | ⟨cid, h1⟩ | h1
  · cases h1
  · cases h1
  · obtain ⟨nm, -, c, -, -, h2⟩ := mem_cleanup env q _ h1
    cases h2

/-- C2 counterexample: in the name-conflict recovery of `envConflict`,
the reconciler issues `docker rm -f` for the container `cid1`, which
does not carry `konta.managed=true` — it merely bears a name listed in
the project's compose file.  The ownership-containment property
therefore fails for this cycle's trace. -/
theorem ownership_claim_counterexample :
    Recon.DockerCmd.rmForce "cid1".data ∈ (Recon.Reconcile envConflict none).2 ∧
    (∀ c ∈ envConflict.containers, c.managed = false) ∧
    ¬Recon.ownershipContained envConflict (Recon.Reconcile envConflict none).2 :=
  ⟨by decide, by decide, by decide⟩

/-- C2 (amended): every `docker compose down` issued by `Reconcile` or
`HealthCheck` targets a project of the running set, which is computed
only from running containers carrying `konta.managed=true`; but the
`docker rm -f` issued during name-conflict recovery targets containers
matched by a `container_name:` entry of a desired project's compose
file, with no label requirement. -/
theorem ownership_containment (env : Recon.RecEnv) (fset : Option (List GoStr)) :
    (∀ p, Recon.DockerCmd.composeDown p ∈ (Recon.Reconcile env fset).2 →
      p ∈ Recon.getRunningProjects env ∧
      ∃ c ∈ env.containers, c.managed = true ∧ c.running = true ∧ c.project = p) ∧
    (∀ p, Recon.DockerCmd.composeDown p ∈ (Recon.HealthCheck env).2 →
      p ∈ Recon.getRunningProjects env ∧
      ∃ c ∈ env.containers, c.managed = true ∧ c.running = true ∧ c.project = p) ∧
    (∀ cid, Recon.DockerCmd.rmForce cid ∈ (Recon.Reconcile env fset).2 →
      ∃ q ∈ env.desired, ∃ nm ∈ env.composeNames q,
        ∃ c ∈ env.containers, c.name = nm ∧ c.cid = cid) := by
  refine ⟨?_, ?_, ?_⟩
  · intro p h
    rw [Reconcile_eq] at h
    by_cases hok : (Recon.reconcileLoop env fset env.desired).1 = true
    · rw [if_pos hok] at h
      replace h : Recon.DockerCmd.composeDown p ∈
          (Recon.reconcileLoop env fset env.desired).2.2 ++
            (Recon.startLoop env
              (Recon.reconcileLoop env fset env.desired).2.1 env.desired).2 ++
            Recon.downOrphans env env.desired (Recon.getRunningProjects env) := h
      rcases List.mem_append.mp h with h2 | h2
      · rcases List.mem_append.mp h2 with h3 | h3
        · exact absurd h3 (down_notin_reconcileLoop env fset env.desired p)
        · rcases mem_startLoop env _ _ _ h3 with ⟨cid, h4⟩ | ⟨q, h4⟩ <;> cases h4
      · obtain ⟨q, hq, -, -, heq⟩ := (mem_downOrphans env _ _ _).mp h2
        obtain rfl : p = q := by injection heq
        exact ⟨hq, getRunningProjects_spec env p hq⟩
    · rw [if_neg hok] at h
      replace h : Recon.DockerCmd.composeDown p ∈
          (Recon.reconcileLoop env fset env.desired).2.2 := h
      exact absurd h (down_notin_reconcileLoop env fset env.desired p)
  · intro p h
    replace h : Recon.DockerCmd.composeDown p ∈
        (Recon.healthLoop env env.desired).2 ++
          Recon.downOrphans env env.desired (Recon.getRunningProjects env) := h
    rcases List.mem_append.mp h with h2 | h2
    · rcases mem_healthLoop env _ _ h2 with ⟨cid, h4⟩ | ⟨q, h4⟩ <;> cases h4
    · obtain ⟨q, hq, -, -, heq⟩ := (mem_downOrphans env _ _ _).mp h2
      obtain rfl : p = q := by injection heq
      exact ⟨hq, getRunningProjects_spec env p hq⟩
  · intro cid h
    have hloop : Recon.DockerCmd.rmForce cid ∈
        (Recon.reconcileLoop env fset env.desired).2.2 := by
      rw [Reconcile_eq] at h
      by_cases hok : (Recon.reconcileLoop env fset env.desired).1 = true
      · rw [if_pos hok] at h
        replace h : Recon.DockerCmd.rmForce cid ∈
            (Recon.reconcileLoop env fset env.desired).2.2 ++
              (Recon.startLoop env
                (Recon.reconcileLoop env fset env.desired).2.1 env.desired).2 ++
              Recon.downOrphans env env.desired (Recon.getRunningProjects env) := h
        rcases List.mem_append.mp h with h2 | h2
        · rcases List.mem_append.mp h2 with h3 | h3
          · exact h3
          · rcases mem_startLoop env _ _ _ h3 with ⟨c2, h4⟩ | ⟨q, h4⟩ <;> cases h4
        · obtain ⟨q, -, -, -, heq⟩ := (mem_downOrphans env _ _ _).mp h2
          cases heq
      · rw [if_neg hok] at h
        exact h
    obtain ⟨q, hq, hcmd⟩ := mem_reconcileLoop env fset env.desired _ hloop
    rcases mem_reconcileProject env q _ hcmd with h1 | ⟨c2, h1⟩ | h1
    · cases h1
    · cases h1
    · obtain ⟨nm, hnm, c, hcmem, hcname, h2⟩ := mem_cleanup env q _ h1
      cases h2
      exact ⟨q, hq, nm, hnm, c, hcmem, hcname, rfl⟩

/-- C2 witness: the amended containment applied to the orphan scenario —
the project `legacy` brought down is in the managed running set. -/
theorem ownership_containment_witness :
    "legacy".data ∈ Recon.getRunningProjects envOrphan ∧
    ∃ c ∈ envOrphan.containers, c.managed = true ∧ c.running = true ∧
      c.project = "legacy".data :=
  (ownership_containment envOrphan none).1 "legacy".data (by decide)

end Konta
